import Mathlib

/-!
Verification of the validation and request-orchestration layer of the
Email-Generator repository.

The embedding translates the TypeScript sources into executable Lean
definitions over `List Char` / `String`:

* `src/types/validation.ts` (shipped inside `src/types/validation.test.ts`
  after the document separator): `validateEmailFormat`, `validateEmailList`,
  `sanitizeInput`, the validator email regex `EMAIL_VALIDATION.EMAIL_REGEX`;
* `src/app/api/send-email/route.ts`: `EMAIL_REGEX`, `validateEmails`,
  `sanitizeContent`, and the `POST` dispatch handler;
* `src/unnamed/part_002` (the `/api/generate-email` route): the `POST`
  generate handler;
* `src/components/EmailComposer.tsx`: the `Subject:` split applied to a
  generated draft.

JavaScript regexes are embedded as decision procedures derived from their
(anchored, backtracking) semantics; character classes use explicit code
points.  Line terminators are modelled as LF, CR, U+2028, U+2029 (the
JavaScript `LineTerminator` set) and whitespace as the JavaScript `\s`
set.  Strings are modelled as their `List Char` code-point sequences
(JavaScript string indices are UTF-16 based, which agrees with code
points for all reasoning done here).
-/

/-! ### Character classes -/

/-- JavaScript `\s` (whitespace, as used by `trim()` and `\s` in regexes):
space, tab, LF, VT, FF, CR, NBSP, U+1680, U+2000-U+200A, LS, PS, U+202F,
U+205F, U+3000, BOM. -/
def isJsWs (c : Char) : Bool :=
  decide (c.toNat = 0x20 ∨ c.toNat = 0x09 ∨ c.toNat = 0x0A ∨ c.toNat = 0x0B ∨
    c.toNat = 0x0C ∨ c.toNat = 0x0D ∨ c.toNat = 0xA0 ∨ c.toNat = 0x1680 ∨
    (0x2000 ≤ c.toNat ∧ c.toNat ≤ 0x200A) ∨ c.toNat = 0x2028 ∨
    c.toNat = 0x2029 ∨ c.toNat = 0x202F ∨ c.toNat = 0x205F ∨
    c.toNat = 0x3000 ∨ c.toNat = 0xFEFF)

/-- JavaScript `LineTerminator`: LF, CR, LS, PS.  These are the characters
that `.` refuses to match and that multiline `$` matches before. -/
def isLineTerm (c : Char) : Bool :=
  decide (c.toNat = 0x0A ∨ c.toNat = 0x0D ∨ c.toNat = 0x2028 ∨ c.toNat = 0x2029)

/-- The control characters removed by `sanitizeInput`, i.e. the regex class
`[\x00-\x08\x0B\x0C\x0E-\x1F\x7F]` (tab, LF and CR are preserved). -/
def isCtl (c : Char) : Bool :=
  decide (c.toNat ≤ 0x08 ∨ c.toNat = 0x0B ∨ c.toNat = 0x0C ∨
    (0x0E ≤ c.toNat ∧ c.toNat ≤ 0x1F) ∨ c.toNat = 0x7F)

/-- The regex class `[a-zA-Z0-9]`. -/
def isAsciiAlphanum (c : Char) : Bool :=
  decide ((0x41 ≤ c.toNat ∧ c.toNat ≤ 0x5A) ∨ (0x61 ≤ c.toNat ∧ c.toNat ≤ 0x7A) ∨
    (0x30 ≤ c.toNat ∧ c.toNat ≤ 0x39))

/-- The non-alphanumeric characters allowed in the local part of
`EMAIL_VALIDATION.EMAIL_REGEX` (src/types/validation.ts):
`! # $ % & ' * + / = ? ^ _ \x60 \x7b | \x7d ~ -`. -/
def atomSpecials : List Char :=
  ['!', '#', '$', '%', '&', '\x27', '*', '+', '/', '=', '?', '^', '_',
   '\x60', '\x7b', '|', '\x7d', '~', '-']

/-- A character of a local-part atom of the validator regex. -/
def isAtomChar (c : Char) : Bool :=
  isAsciiAlphanum c || decide (c ∈ atomSpecials)

/-- A character allowed inside a DNS label of the validator regex:
the class `[a-zA-Z0-9-]`. -/
def isLabelChar (c : Char) : Bool :=
  isAsciiAlphanum c || decide (c = '-')

/-- JavaScript `\w` (used for the `\b` boundary after `<script` /
`<iframe` in `sanitizeContent`). -/
def isWordChar (c : Char) : Bool :=
  isAsciiAlphanum c || decide (c = '_')

/-! ### JavaScript `trim()` -/

/-- JavaScript `String.prototype.trim`: remove leading and trailing `\s`
characters. -/
def jsTrim (l : List Char) : List Char :=
  ((l.dropWhile isJsWs).reverse.dropWhile isJsWs).reverse

/-- String-level wrapper of `jsTrim`. -/
def jsTrimStr (s : String) : String := ⟨jsTrim s.data⟩

/-! ### Splitting on a separator character

Both embedded regexes are decided after splitting the candidate string at
`@` (no character class of either regex admits `@`, so a match forces
exactly one `@`) and the resulting parts at `.` where the grammar demands
dot-separated pieces. -/

/-- Split a character list at every occurrence of `sep`; always returns at
least one (possibly empty) part, like `String.prototype.split`. -/
def splitOnChar (sep : Char) : List Char → List (List Char)
  | [] => [[]]
  | c :: cs =>
    if c = sep then [] :: splitOnChar sep cs
    else
      let r := splitOnChar sep cs
      (c :: r.headD []) :: r.tail

/-! ### sanitizeInput (src/types/validation.ts)

`sanitizeInput` pipeline: `trim()`, replace NUL with space, strip the
control-character class, collapse runs of two or more plain spaces to one,
`trim()` again.  Non-string and empty inputs yield `""`. -/

/-- Replace every NUL with a space (`.replace(/\0/g, " ")`). -/
def replNul (l : List Char) : List Char :=
  l.map (fun c => if c.toNat = 0 then ' ' else c)

/-- Remove the control characters (`.replace(/[\x00-\x08\x0B\x0C\x0E-\x1F\x7F]/g, "")`). -/
def stripCtl (l : List Char) : List Char :=
  l.filter (fun c => !(isCtl c))

/-- Collapse every run of consecutive plain spaces to a single space
(`.replace(/[ ]{2,}/g, " ")`; a run of length one is untouched, which a
single-space output also realises).  The flag records whether the
previous emitted character position was inside a space run. -/
def collapseSpAux : Bool → List Char → List Char
  | _, [] => []
  | prevSp, c :: cs =>
    if c = ' ' then
      if prevSp then collapseSpAux true cs
      else ' ' :: collapseSpAux true cs
    else c :: collapseSpAux false cs

/-- Collapse runs of spaces, starting outside a run. -/
def collapseSp (l : List Char) : List Char := collapseSpAux false l

/-- The `sanitizeInput` pipeline on character lists. -/
def sanitizeInputL (l : List Char) : List Char :=
  jsTrim (collapseSp (stripCtl (replNul (jsTrim l))))

/-- `sanitizeInput` from src/types/validation.ts.  The guard mirrors the
`!input` check: the only falsy string is `""` (non-string inputs, which
also return `""`, are outside the `String` domain of this model). -/
def sanitizeInput (s : String) : String :=
  if s = "" then "" else ⟨sanitizeInputL s.data⟩

/-! ### The two email regexes

`EMAIL_REGEX` (src/app/api/send-email/route.ts line 6):
`/^[^\s@]+@[^\s@]+\.[^\s@]+$/`.  A match forces exactly one `@` (no class
admits it), no whitespace anywhere, a non-empty local part, and a `.` in
the domain at neither the first nor the last position (the part before
the chosen dot and the part after it must be non-empty; `[^\s@]` itself
admits dots, so any interior dot works). -/

/-- Decision procedure for the dispatch route's `EMAIL_REGEX`. -/
def emailRegexTest (l : List Char) : Bool :=
  match splitOnChar '@' l with
  | [loc, dom] =>
    decide (loc ≠ []) && (loc ++ dom).all (fun c => !(isJsWs c)) &&
      ((dom.drop 1).dropLast).contains '.'
  | _ => false

/-- One dot-separated piece of the validator regex's local part:
`[a-zA-Z0-9!#$%&'*+/=?^_\x60\x7b|\x7d~-]+`. -/
def localAtomOk (a : List Char) : Bool :=
  decide (a ≠ []) && a.all isAtomChar

/-- One DNS label of the validator regex:
`[a-zA-Z0-9](?:[a-zA-Z0-9-]{0,61}[a-zA-Z0-9])?`, i.e. length 1 to 63,
alphanumeric first and last character, interior alphanumeric or hyphen. -/
def labelOk (lab : List Char) : Bool :=
  match lab.head?, lab.getLast? with
  | some a, some b =>
    isAsciiAlphanum a && isAsciiAlphanum b && decide (lab.length ≤ 63) &&
      lab.all isLabelChar
  | _, _ => false

/-- Decision procedure for `EMAIL_VALIDATION.EMAIL_REGEX`
(src/types/validation.ts): dot-separated non-empty atoms before the `@`,
at least two dot-separated labels after it. -/
def validatorRegexTest (l : List Char) : Bool :=
  match splitOnChar '@' l with
  | [loc, dom] =>
    (splitOnChar '.' loc).all localAtomOk &&
      (decide (2 ≤ (splitOnChar '.' dom).length) &&
        (splitOnChar '.' dom).all labelOk)
  | _ => false

/-! ### validateEmailFormat / validateEmailList (src/types/validation.ts) -/

/-- A JavaScript value in a string position: `missing` covers
`null`/`undefined`, `nonString` any other non-string value. -/
inductive StrVal where
  | missing
  | nonString
  | str (s : String)
deriving DecidableEq, Repr

/-- Result record of `validateEmailFormat`. -/
structure EmailValidationResult where
  isValid : Bool
  error : Option String
deriving DecidableEq, Repr

/-- `validateEmailFormat` from src/types/validation.ts: the `!email`
guard rejects `null`, `undefined` and `""`; the `typeof` guard rejects
non-strings; then the trimmed value is checked for emptiness, the
254-character bound and the validator regex. -/
def validateEmailFormat : StrVal → EmailValidationResult
  | .missing => ⟨false, some "Email address is required"⟩
  | .nonString => ⟨false, some "Email address is required"⟩
  | .str s =>
    if s = "" then ⟨false, some "Email address is required"⟩
    else if jsTrim s.data = [] then ⟨false, some "Email address cannot be empty"⟩
    else if 254 < (jsTrim s.data).length then
      ⟨false, some "Email address is too long (maximum 254 characters)"⟩
    else if validatorRegexTest (jsTrim s.data) then ⟨true, none⟩
    else ⟨false, some "Please enter a valid email address"⟩

/-- A JavaScript value in an array position. -/
inductive ListVal where
  | notArray
  | arr (xs : List String)
deriving DecidableEq, Repr

/-- Normalisation used by the duplicate check of `validateEmailList`:
`email.trim().toLowerCase()`.  JavaScript's `toLowerCase` performs the
full Unicode Default Case Conversion — a version-dependent table with
context-sensitive rules (final sigma) that no fixed finite transcription
captures exactly — so the case mapping is a parameter of the model, like
the external collaborators; the theorems below hold for every mapping
`lower`, hence in particular for the runtime's actual one. -/
def normEmail (lower : String → String) (e : String) : String :=
  lower (jsTrimStr e)

/-- ASCII-range case mapping, one concrete instantiation of the
case-mapping parameter, used to evaluate witnesses. -/
def asciiLower (s : String) : String := ⟨s.data.map Char.toLower⟩

/-- `validateEmailList` from src/types/validation.ts, parameterised by
the case mapping `lower` of the runtime: batch-level checks (non-array,
empty, more than `MAX_RECIPIENTS = 50`, case-insensitive trimmed
duplicates — `new Set(...).size !== emails.length` is equivalent to the
mapped list not being `Nodup`) short-circuit before the per-item
`validateEmailFormat` map. -/
def validateEmailList (lower : String → String) :
    ListVal → List EmailValidationResult
  | .notArray => [⟨false, some "Invalid email list format"⟩]
  | .arr xs =>
    if xs = [] then [⟨false, some "At least one email address is required"⟩]
    else if 50 < xs.length then
      [⟨false, some "Maximum 50 recipients allowed"⟩]
    else if ¬ (xs.map (normEmail lower)).Nodup then
      [⟨false, some "Duplicate email addresses are not allowed"⟩]
    else xs.map (fun e => validateEmailFormat (.str e))

/-! ### sanitizeContent (src/app/api/send-email/route.ts)

`sanitizeContent` removes every `<script ...>...</script>` and
`<iframe ...>...</iframe>` block (case-insensitive; the regex
`/<script\b[^<]*(?:(?!<\/script>)<[^<]*)*<\/script>/gi` matches from an
opening tag to the first closing tag after it) and trims the result.
`String.prototype.replace` with `/g` removes non-overlapping matches
left to right, continuing after each removed span (a tag formed by the
concatenation of the surrounding text is not removed). -/

/-- Case-insensitive (ASCII) check that `pat` starts the list `l`
(`pat` is given lower-case). -/
def ciStarts : List Char → List Char → Bool
  | [], _ => true
  | _ :: _, [] => false
  | p :: ps, c :: cs => (p == c.toLower) && ciStarts ps cs

/-- Word-boundary condition `\b` after the opening tag: the next
character, if any, must not be a `\w` character. -/
def wordBoundaryOk : List Char → Bool
  | [] => true
  | c :: _ => !(isWordChar c)

/-- Position of the end of the first case-insensitive occurrence of
`pat` in `l`: `some rest` with `rest` the suffix after the occurrence. -/
def findClose (pat : List Char) : List Char → Option (List Char)
  | [] => none
  | c :: cs =>
    if ciStarts pat (c :: cs) then some ((c :: cs).drop pat.length)
    else findClose pat cs

/-- Remove every tag block.  `skip = k + 1` means the current position is
still inside a matched span with `k + 1` characters left to delete.  At
`skip = 0`, if the (lower-case) opening tag followed by a word boundary
starts here and a closing tag occurs later, the whole span up to the end
of that first closing tag is deleted; otherwise scanning moves one
character forward, as the regex engine does after a failed match. -/
def stripTagBlocks (openT closeT : List Char) : Nat → List Char → List Char
  | _, [] => []
  | k + 1, _ :: cs => stripTagBlocks openT closeT k cs
  | 0, c :: cs =>
    if ciStarts openT (c :: cs) && wordBoundaryOk ((c :: cs).drop openT.length) then
      match findClose closeT ((c :: cs).drop openT.length) with
      | some rest => stripTagBlocks openT closeT ((c :: cs).length - rest.length - 1) cs
      | none => c :: stripTagBlocks openT closeT 0 cs
    else c :: stripTagBlocks openT closeT 0 cs

/-- `sanitizeContent`: strip script blocks, then iframe blocks, then trim. -/
def sanitizeContent (s : String) : String :=
  ⟨jsTrim (stripTagBlocks "<iframe".data "</iframe>".data 0
    (stripTagBlocks "<script".data "</script>".data 0 s.data))⟩

/-! ### The dispatch endpoint (src/app/api/send-email/route.ts, `POST`)

The handler is modelled as a pure function of the parsed request body,
the outcome of the `transporter.verify()` probe, and the outcome of each
`transporter.sendMail` attempt (indexed by position in the send loop).
Besides the HTTP response it returns the list of recipients to which a
send was attempted, so that "no send is attempted" is expressible. -/

/-- One entry of the `recipients` array: `validateEmails` keeps
non-string entries as `String(email)` in the invalid list. -/
inductive RecipientVal where
  | nonString (shown : String)
  | str (s : String)
deriving DecidableEq, Repr

/-- A JavaScript value in the `recipients` array position. -/
inductive RecVal where
  | missing
  | notArray
  | arr (xs : List RecipientVal)
deriving DecidableEq, Repr

/-- Parsed request body of the dispatch endpoint. -/
structure SendReq where
  recipients : RecVal
  subject : StrVal
  content : StrVal

/-- JSON response of the dispatch endpoint; absent fields are `none`. -/
structure SendResp where
  status : Nat
  success : Bool
  sentCount : Option Nat
  failedRecipients : Option (List String)
  error : Option String
deriving DecidableEq, Repr

/-- `validateEmails` from the dispatch route: partition the entries, in
order, into regex-accepted trimmed addresses and rejected entries
(non-strings are rejected as their string rendering; strings are trimmed
and tested against `EMAIL_REGEX`). -/
def validateEmails : List RecipientVal → List String × List String
  | [] => ([], [])
  | .nonString shown :: rest =>
    let p := validateEmails rest
    (p.1, shown :: p.2)
  | .str s :: rest =>
    let p := validateEmails rest
    if emailRegexTest (jsTrim s.data) then (jsTrimStr s :: p.1, p.2)
    else (p.1, jsTrimStr s :: p.2)

/-- The per-recipient send loop: attempt `i` succeeds iff `ok i`;
successes are counted, failures are collected in order. -/
def sendLoop (ok : Nat → Bool) : Nat → List String → Nat × List String
  | _, [] => (0, [])
  | i, r :: rs =>
    let p := sendLoop ok (i + 1) rs
    if ok i then (p.1 + 1, p.2) else (p.1, r :: p.2)

/-- The `!subject` / `typeof` / empty-trim presence check on a string
field: returns the string when it passes. -/
def strPresent : StrVal → Option String
  | .str s => if s = "" then none else if jsTrim s.data = [] then none else some s
  | _ => none

/-- The dispatch `POST` handler.  Returns the response and the list of
recipients handed to `sendMail`. -/
def sendPOST (req : SendReq) (probe : Bool) (ok : Nat → Bool) :
    SendResp × List String :=
  match req.recipients with
  | .missing =>
    (⟨400, false, none, none, some "Recipients are required and must be a non-empty array"⟩, [])
  | .notArray =>
    (⟨400, false, none, none, some "Recipients are required and must be a non-empty array"⟩, [])
  | .arr xs =>
    if xs = [] then
      (⟨400, false, none, none, some "Recipients are required and must be a non-empty array"⟩, [])
    else match strPresent req.subject with
    | none =>
      (⟨400, false, none, none, some "Subject is required and must be a non-empty string"⟩, [])
    | some subj =>
      match strPresent req.content with
      | none =>
        (⟨400, false, none, none, some "Content is required and must be a non-empty string"⟩, [])
      | some cont =>
        let vi := validateEmails xs
        if vi.2 ≠ [] then
          (⟨400, false, none, some vi.2,
            some ("Invalid email addresses: " ++ String.intercalate ", " vi.2)⟩, [])
        else if vi.1 = [] then
          (⟨400, false, none, none, some "No valid email addresses provided"⟩, [])
        else
          let ss := sanitizeContent subj
          let sc := sanitizeContent cont
          if ss = "" then
            (⟨400, false, none, none, some "Subject is required and must be a non-empty string"⟩, [])
          else if sc = "" then
            (⟨400, false, none, none, some "Content is required and must be a non-empty string"⟩, [])
          else if probe then
            let r := sendLoop ok 0 vi.1
            if r.1 = 0 then
              (⟨500, false, some 0, some r.2, some "Failed to send emails to any recipients"⟩, vi.1)
            else if r.2 ≠ [] then
              (⟨207, true, some r.1, some r.2,
                some ("Partially successful: failed to send to " ++
                  toString r.2.length ++ " recipients")⟩, vi.1)
            else (⟨200, true, some r.1, none, none⟩, vi.1)
          else
            (⟨500, false, none, none, some "Email service configuration error"⟩, [])

/-! ### The generate endpoint (src/unnamed/part_002, `POST`)

Modelled as a pure function of the environment's API-key presence, the
parsed `prompt` field and the completion text the external collaborator
would return (`none` when `completion.choices[0]?.message?.content` is
absent).  The second component records whether the collaborator was
called at all. -/

/-- JSON response of the generate endpoint. -/
structure GenResp where
  status : Nat
  success : Bool
  email : Option String
deriving DecidableEq, Repr

/-- The generate `POST` handler: missing API key is rejected first
(500); then the `!prompt` / `typeof` / empty-trim check and the
2000-character bound (on the untrimmed prompt) are applied (400) before
any upstream call; an empty or absent completion yields 500, otherwise
the trimmed completion text is returned. -/
def generatePOST (hasKey : Bool) (p : StrVal) (completion : Option String) :
    GenResp × Bool :=
  if ¬ hasKey then (⟨500, false, none⟩, false)
  else match p with
  | .missing => (⟨400, false, none⟩, false)
  | .nonString => (⟨400, false, none⟩, false)
  | .str s =>
    if s = "" then (⟨400, false, none⟩, false)
    else if jsTrim s.data = [] then (⟨400, false, none⟩, false)
    else if 2000 < s.data.length then (⟨400, false, none⟩, false)
    else match completion with
    | none => (⟨500, false, none⟩, true)
    | some t =>
      if t = "" then (⟨500, false, none⟩, true)
      else (⟨200, true, some (jsTrimStr t)⟩, true)

/-! ### The subject/body split (src/components/EmailComposer.tsx)

On a successful generation the composer extracts a subject with
`emailContent.match(/^Subject:\s*(.+?)$/m)` and, when it matches,
removes the first matched span with
`emailContent.replace(/^Subject:\s*.+?$/m, "")` and trims; with no match
the body is the text unchanged.  Both regexes find the same first match:
with the `m` flag `^` anchors at the string start and after every line
terminator, greedy `\s*` also eats line terminators, `.` matches
anything but a line terminator, and the lazy `(.+?)$` group therefore
runs from the first non-terminator character reachable by backtracking
`\s*` to the next line terminator or the end of the string. -/

/-- Attempt the pattern `Subject:\s*(.+?)$` at the current position.
Returns the captured group and the remaining suffix after the match.
After the literal `Subject:`, greedy `\s*` first consumes the maximal
whitespace run; if a character follows it, the capture runs from there
to the next line terminator.  Otherwise `\s*` backtracks to the last
whitespace position holding a non-terminator character, the capture is
that single character, and the rest of the run (all terminators)
follows the match. -/
def tryMatch (l : List Char) : Option (List Char × List Char) :=
  if l.take 8 = "Subject:".data then
    match (l.drop 8).dropWhile isJsWs with
    | _ :: _ =>
      some (((l.drop 8).dropWhile isJsWs).takeWhile (fun c => !(isLineTerm c)),
        ((l.drop 8).dropWhile isJsWs).dropWhile (fun c => !(isLineTerm c)))
    | [] =>
      match ((l.drop 8).takeWhile isJsWs).reverse.dropWhile isLineTerm with
      | [] => none
      | c :: _ =>
        some ([c],
          (((l.drop 8).takeWhile isJsWs).reverse.takeWhile isLineTerm).reverse)
  else none

/-- Package a successful `tryMatch` at the current position: the
capture, the accumulated text before the match (reversed), and the text
after the match. -/
def scanHit (acc : List Char) :
    Option (List Char × List Char) →
      Option (List Char × List Char × List Char)
  | some (subj, rest) => some (subj, acc.reverse, rest)
  | none => none

/-- Scan for the first position where `^` can anchor (the start of the
string or just after a line terminator) and the pattern matches.
Returns the capture, the text before the match and the text after it.
At the end of the string the pattern (which needs `Subject:` plus at
least one further character) cannot match, so the scan ends. -/
def scanSubject : List Char → List Char → Bool →
    Option (List Char × List Char × List Char)
  | _, [], _ => none
  | acc, c :: cs, atStart =>
    if atStart ∧ (tryMatch (c :: cs)).isSome then
      scanHit acc (tryMatch (c :: cs))
    else
      scanSubject (c :: acc) cs (isLineTerm c)

/-- The composer's subject/body split: on a match, the subject is the
trimmed capture and the body is the text with the matched span removed
and trimmed; with no match, the subject is empty and the body is the
raw text unchanged. -/
def parseGenerated (s : String) : String × String :=
  match scanSubject [] s.data true with
  | some (subj, pre, post) => (⟨jsTrim subj⟩, ⟨jsTrim (pre ++ post)⟩)
  | none => ("", s)

/-- The no-double-space relation on adjacent characters. -/
def NoSpPair (a b : Char) : Prop := ¬(a = ' ' ∧ b = ' ')

/-! ### Batch-level condition of `validateEmailList` -/

/-- The batch-level failure condition of `validateEmailList`: non-array
input, empty list, more than 50 entries, or two entries equal after
trimming and lower-casing (under the case mapping `lower`). -/
def batchCond (lower : String → String) : ListVal → Prop
  | .notArray => True
  | .arr xs => xs = [] ∨ 50 < xs.length ∨ ¬ (xs.map (normEmail lower)).Nodup

instance instDecidableBatchCond (lower : String → String) :
    ∀ v, Decidable (batchCond lower v)
  | .notArray => .isTrue trivial
  | .arr _ => inferInstanceAs (Decidable (_ ∨ _ ∨ _))

/-! ### Generic list lemmas -/

/-- Head of a `dropWhile` result does not satisfy the predicate. -/
theorem head_dropWhile_not {p : Char → Bool} :
    ∀ {l : List Char} {c : Char}, (l.dropWhile p).head? = some c → p c = false := by
  intro l
  induction l with
  | nil => intro c h; simp [List.dropWhile] at h
  | cons x xs ih =>
    intro c h
    by_cases hx : p x
    · rw [List.dropWhile_cons_of_pos hx] at h
      exact ih h
    · rw [List.dropWhile_cons_of_neg hx] at h
      simp at h
      subst h
      simpa using hx

/-- A list whose head does not satisfy the predicate is fixed by
`dropWhile`. -/
theorem dropWhile_eq_self {p : Char → Bool} {l : List Char}
    (h : ∀ c, l.head? = some c → p c = false) : l.dropWhile p = l := by
  cases l with
  | nil => rfl
  | cons c cs => simp [List.dropWhile, h c rfl]

/-- Mapping a function that fixes every member fixes the list. -/
theorem map_eq_self_of_mem {f : Char → Char} :
    ∀ {l : List Char}, (∀ c ∈ l, f c = c) → l.map f = l := by
  intro l
  induction l with
  | nil => intro _; rfl
  | cons x xs ih =>
    intro h
    simp only [List.map_cons, h x (List.mem_cons_self x xs),
      ih (fun c hc => h c (List.mem_cons_of_mem x hc))]

/-! ### Structure of `jsTrim` outputs -/

/-- The trimmed list is an infix of the original. -/
theorem jsTrim_infix_self (l : List Char) : jsTrim l <:+: l := by
  have h1 : l.dropWhile isJsWs <:+ l := List.dropWhile_suffix isJsWs
  have h2 : jsTrim l <+: l.dropWhile isJsWs := by
    rw [← List.reverse_suffix]
    simpa [jsTrim] using
      List.dropWhile_suffix (l := (l.dropWhile isJsWs).reverse) isJsWs
  obtain ⟨t1, ht1⟩ := h2
  obtain ⟨s1, hs1⟩ := h1
  exact ⟨s1, t1, by rw [List.append_assoc, ht1, hs1]⟩

/-- Members of the trimmed list are members of the original. -/
theorem jsTrim_mem {l : List Char} {c : Char} (h : c ∈ jsTrim l) : c ∈ l :=
  (jsTrim_infix_self l).sublist.subset h

/-- The head of a trimmed list is not whitespace. -/
theorem jsTrim_head {l : List Char} {c : Char}
    (h : (jsTrim l).head? = some c) : isJsWs c = false := by
  unfold jsTrim at h
  set m := l.dropWhile isJsWs with hm
  have hpre : (m.reverse.dropWhile isJsWs).reverse <+: m := by
    rw [← List.reverse_suffix]
    simpa using List.dropWhile_suffix (l := m.reverse) isJsWs
  obtain ⟨t, ht⟩ := hpre
  cases he : (m.reverse.dropWhile isJsWs).reverse with
  | nil => rw [he] at h; simp at h
  | cons a r =>
    rw [he] at h ht
    have hca : c = a := by simpa using h.symm
    subst hca
    have hma : m.head? = some c := by rw [← ht]; rfl
    rw [hm] at hma
    exact head_dropWhile_not hma

/-- The last element of a trimmed list is not whitespace. -/
theorem jsTrim_last {l : List Char} {c : Char}
    (h : (jsTrim l).getLast? = some c) : isJsWs c = false := by
  unfold jsTrim at h
  rw [List.getLast?_reverse] at h
  exact head_dropWhile_not h

/-- A list whose ends are not whitespace is fixed by `jsTrim`. -/
theorem jsTrim_eq_self {l : List Char}
    (h1 : ∀ c, l.head? = some c → isJsWs c = false)
    (h2 : ∀ c, l.getLast? = some c → isJsWs c = false) : jsTrim l = l := by
  unfold jsTrim
  rw [dropWhile_eq_self h1, dropWhile_eq_self
    (fun c hc => h2 c (by rwa [List.head?_reverse] at hc)), List.reverse_reverse]

/-- Trimming is idempotent. -/
theorem jsTrim_fix (l : List Char) : jsTrim (jsTrim l) = jsTrim l :=
  jsTrim_eq_self (fun _ h => jsTrim_head h) (fun _ h => jsTrim_last h)

/-! ### Structure of `collapseSp` outputs -/

/-- Every member of a collapsed list is a member of the input. -/
theorem collapseSpAux_mem :
    ∀ {b : Bool} {l : List Char} {c : Char}, c ∈ collapseSpAux b l → c ∈ l := by
  intro b l
  induction l generalizing b with
  | nil => intro c h; simp [collapseSpAux] at h
  | cons x xs ih =>
    intro c h
    by_cases hx : x = ' '
    · subst hx
      cases b with
      | true =>
        simp only [collapseSpAux, if_pos rfl] at h
        exact List.mem_cons_of_mem _ (ih h)
      | false =>
        simp only [collapseSpAux, if_pos rfl] at h
        rcases List.mem_cons.mp h with h1 | h2
        · exact h1 ▸ List.mem_cons_self _ _
        · exact List.mem_cons_of_mem _ (ih h2)
    · simp only [collapseSpAux, if_neg hx] at h
      rcases List.mem_cons.mp h with h1 | h2
      · exact h1 ▸ List.mem_cons_self _ _
      · exact List.mem_cons_of_mem _ (ih h2)

/-- In run-skipping mode the next emitted character is not a space. -/
theorem collapseSpAux_true_head :
    ∀ {l : List Char} {c : Char}, (collapseSpAux true l).head? = some c → c ≠ ' ' := by
  intro l
  induction l with
  | nil => intro c h; simp [collapseSpAux] at h
  | cons x xs ih =>
    intro c h
    by_cases hx : x = ' '
    · subst hx
      simp only [collapseSpAux, if_pos rfl] at h
      exact ih h
    · simp only [collapseSpAux, if_neg hx] at h
      simp at h
      exact h.symm ▸ hx

/-- Reduction of `collapseSpAux` at a space in run-skipping mode. -/
theorem collapseSpAux_sp_true (cs : List Char) :
    collapseSpAux true (' ' :: cs) = collapseSpAux true cs := by
  simp [collapseSpAux]

/-- Reduction of `collapseSpAux` at a space outside a run. -/
theorem collapseSpAux_sp_false (cs : List Char) :
    collapseSpAux false (' ' :: cs) = ' ' :: collapseSpAux true cs := by
  simp [collapseSpAux]

/-- Reduction of `collapseSpAux` at a non-space. -/
theorem collapseSpAux_ne {x : Char} (b : Bool) (hx : x ≠ ' ') (cs : List Char) :
    collapseSpAux b (x :: cs) = x :: collapseSpAux false cs := by
  simp [collapseSpAux, hx]

/-- A collapsed list has no two adjacent spaces. -/
theorem collapseSpAux_chain :
    ∀ {b : Bool} {l : List Char}, List.Chain' NoSpPair (collapseSpAux b l) := by
  intro b l
  induction l generalizing b with
  | nil => simp [collapseSpAux]
  | cons x xs ih =>
    by_cases hx : x = ' '
    · subst hx
      cases b with
      | true => rw [collapseSpAux_sp_true]; exact ih
      | false =>
        rw [collapseSpAux_sp_false, List.chain'_cons']
        refine ⟨fun y hy => ?_, ih⟩
        have hy' : y ≠ ' ' := collapseSpAux_true_head (Option.mem_def.mp hy)
        exact fun hc => hy' hc.2
    · rw [collapseSpAux_ne b hx, List.chain'_cons']
      exact ⟨fun y _ => fun hc => hx hc.1, ih⟩

/-- A list with no two adjacent spaces is fixed by collapsing, and in
run-skipping mode additionally when its head is not a space. -/
theorem collapseSpAux_fix :
    ∀ {l : List Char}, List.Chain' NoSpPair l →
      collapseSpAux false l = l ∧
        ((∀ c, l.head? = some c → c ≠ ' ') → collapseSpAux true l = l) := by
  intro l
  induction l with
  | nil => exact fun _ => ⟨rfl, fun _ => rfl⟩
  | cons x xs ih =>
    intro hch
    rw [List.chain'_cons'] at hch
    obtain ⟨hR, hch'⟩ := hch
    obtain ⟨ihf, iht⟩ := ih hch'
    by_cases hx : x = ' '
    · subst hx
      constructor
      · rw [collapseSpAux_sp_false]
        have hx2 : collapseSpAux true xs = xs := by
          apply iht
          intro c hc
          have := hR c (by rw [hc]; simp)
          exact fun he => this ⟨rfl, he⟩
        rw [hx2]
      · intro hhd
        exact absurd rfl (hhd ' ' rfl)
    · constructor
      · rw [collapseSpAux_ne false hx, ihf]
      · intro _
        rw [collapseSpAux_ne true hx, ihf]

/-! ### Idempotence of `sanitizeInput` -/

/-- NUL replacement leaves no NUL behind. -/
theorem replNul_no_nul {l : List Char} : ∀ c ∈ replNul l, c.toNat ≠ 0 := by
  intro c hc
  obtain ⟨a, _, ha⟩ := List.mem_map.mp hc
  by_cases h0 : a.toNat = 0
  · rw [if_pos h0] at ha
    rw [← ha]
    decide
  · rw [if_neg h0] at ha
    rw [← ha]
    exact h0

/-- Control stripping leaves no control character behind. -/
theorem stripCtl_no_ctl {l : List Char} : ∀ c ∈ stripCtl l, isCtl c = false := by
  intro c hc
  have := List.of_mem_filter hc
  simpa using this

/-- Members of a control-stripped list are members of the input. -/
theorem stripCtl_mem {l : List Char} {c : Char} (h : c ∈ stripCtl l) : c ∈ l :=
  List.mem_of_mem_filter h

/-- The character-list sanitizer pipeline is idempotent. -/
theorem sanitizeInputL_fix (l : List Char) :
    sanitizeInputL (sanitizeInputL l) = sanitizeInputL l := by
  set w := collapseSp (stripCtl (replNul (jsTrim l))) with hw
  have hr : sanitizeInputL l = jsTrim w := rfl
  set r := jsTrim w with hrr
  have hnul : ∀ c ∈ r, c.toNat ≠ 0 := fun c hc =>
    replNul_no_nul c (stripCtl_mem (collapseSpAux_mem (jsTrim_mem hc)))
  have hctl : ∀ c ∈ r, isCtl c = false := fun c hc =>
    stripCtl_no_ctl c (collapseSpAux_mem (jsTrim_mem hc))
  have hch : List.Chain' NoSpPair r := by
    have hi := jsTrim_infix_self w
    exact List.Chain'.infix collapseSpAux_chain hi
  have hjt : jsTrim r = r := by rw [hrr, jsTrim_fix]
  have hrn : replNul r = r :=
    map_eq_self_of_mem (fun c hc => by rw [if_neg (hnul c hc)])
  have hsc : stripCtl r = r :=
    List.filter_eq_self.mpr (fun c hc => by rw [hctl c hc]; rfl)
  have hcf : collapseSp r = r := (collapseSpAux_fix hch).1
  rw [hr]
  show jsTrim (collapseSp (stripCtl (replNul (jsTrim r)))) = r
  rw [hjt, hrn, hsc, hcf, hjt]

/-- C9: the generic sanitizer is idempotent: for every string `s`,
`sanitizeInput (sanitizeInput s) = sanitizeInput s`. -/
theorem sanitizeInput_idempotent (s : String) :
    sanitizeInput (sanitizeInput s) = sanitizeInput s := by
  unfold sanitizeInput
  by_cases hs : s = ""
  · simp [hs]
  · rw [if_neg hs]
    by_cases hr : (⟨sanitizeInputL s.data⟩ : String) = ""
    · rw [if_pos hr]
      exact hr.symm
    · rw [if_neg hr]
      exact congrArg String.mk (sanitizeInputL_fix s.data)

/-- C5: for every case mapping `lower` (in particular the runtime's
Unicode `toLowerCase`), `validateEmailList` returns a single batch-level
failure result, before any per-item check, exactly when the input is not
an array, is empty, has more than 50 entries, or contains two entries
equal after trimming and lower-casing; otherwise it returns one validity
result per input item, in input order, each computed by
`validateEmailFormat`. -/
theorem validateEmailList_spec (lower : String → String) (v : ListVal) :
    (batchCond lower v → ∃ m, validateEmailList lower v = [⟨false, some m⟩])
  ∧ (∀ xs, v = .arr xs → ¬ batchCond lower v →
      validateEmailList lower v =
        xs.map (fun e => validateEmailFormat (.str e))) := by
  constructor
  · intro h
    cases v with
    | notArray => exact ⟨"Invalid email list format", rfl⟩
    | arr xs =>
      simp only [validateEmailList]
      by_cases h1 : xs = []
      · rw [if_pos h1]
        exact ⟨_, rfl⟩
      · rw [if_neg h1]
        by_cases h2 : 50 < xs.length
        · rw [if_pos h2]
          exact ⟨_, rfl⟩
        · rw [if_neg h2]
          have h3 : ¬ (xs.map (normEmail lower)).Nodup := by
            rcases h with a | b | c
            · exact absurd a h1
            · exact absurd b h2
            · exact c
          rw [if_pos h3]
          exact ⟨_, rfl⟩
  · intro xs hv h
    subst hv
    unfold batchCond at h
    obtain ⟨h1, h23⟩ := not_or.mp h
    obtain ⟨h2, h3⟩ := not_or.mp h23
    simp only [validateEmailList]
    rw [if_neg h1, if_neg h2, if_neg h3]

/-- Witness for C5, instantiating the case-mapping parameter with the
concrete `asciiLower`: the case-insensitive duplicate pair from the spec
is a batch-level failure, while a singleton valid list is mapped per
item. -/
theorem validateEmailList_spec_witness :
    (∃ m, validateEmailList asciiLower (.arr ["a@x.com", "A@X.COM"])
      = [⟨false, some m⟩])
  ∧ validateEmailList asciiLower (.arr ["b@x.com"])
      = ["b@x.com"].map (fun e => validateEmailFormat (.str e)) :=
  ⟨(validateEmailList_spec asciiLower (.arr ["a@x.com", "A@X.COM"])).1
      (by decide),
   (validateEmailList_spec asciiLower (.arr ["b@x.com"])).2 _ rfl (by decide)⟩

/-- C6: `validateEmailFormat` rejects everything that is not a non-empty
string, rejects any string whose trimmed length exceeds 254 characters
with the "too long" reason, accepts `user@example.com` and
`a.b+c@sub.example.co.uk`, and rejects the five malformed examples. -/
theorem validateEmailFormat_spec :
    (∀ v : StrVal, v = .missing ∨ v = .nonString ∨ v = .str "" →
      (validateEmailFormat v).isValid = false)
  ∧ (∀ s : String, 254 < (jsTrim s.data).length →
      validateEmailFormat (.str s) =
        ⟨false, some "Email address is too long (maximum 254 characters)"⟩)
  ∧ validateEmailFormat (.str "user@example.com") = ⟨true, none⟩
  ∧ validateEmailFormat (.str "a.b+c@sub.example.co.uk") = ⟨true, none⟩
  ∧ (validateEmailFormat (.str "invalid-email")).isValid = false
  ∧ (validateEmailFormat (.str "@example.com")).isValid = false
  ∧ (validateEmailFormat (.str "user@")).isValid = false
  ∧ (validateEmailFormat (.str "user..name@example.com")).isValid = false
  ∧ (validateEmailFormat (.str "user@com")).isValid = false := by
  refine ⟨?_, ?_, by decide, by decide, by decide, by decide, by decide,
    by decide, by decide⟩
  · intro v h
    rcases h with rfl | rfl | rfl <;> decide
  · intro s h
    by_cases hs : s = ""
    · subst hs
      exact absurd h (by decide)
    · have ht : ¬ (jsTrim s.data = []) := by
        intro he
        rw [he] at h
        exact absurd h (by decide)
      simp only [validateEmailFormat]
      rw [if_neg hs, if_neg ht, if_pos h]

set_option maxRecDepth 4000 in
/-- Witness for C6: a `null` input is rejected, and a 255-character
address is rejected as too long. -/
theorem validateEmailFormat_spec_witness :
    (validateEmailFormat .missing).isValid = false
  ∧ validateEmailFormat (.str ⟨List.replicate 255 'a'⟩) =
      ⟨false, some "Email address is too long (maximum 254 characters)"⟩ :=
  ⟨validateEmailFormat_spec.1 .missing (Or.inl rfl),
   validateEmailFormat_spec.2.1 ⟨List.replicate 255 'a'⟩ (by decide)⟩

/-! ### Relating the two regexes (refinement) -/

/-- Atom characters are not whitespace. -/
theorem atom_not_ws {c : Char} (h : isAtomChar c = true) : isJsWs c = false := by
  rcases Bool.or_eq_true _ _ |>.mp h with h1 | h2
  · simp only [isAsciiAlphanum, decide_eq_true_eq] at h1
    simp only [isJsWs, decide_eq_false_iff_not]
    omega
  · have hall : ∀ x ∈ atomSpecials, isJsWs x = false := by decide
    exact hall c (by simpa using h2)

/-- Label characters are not whitespace. -/
theorem label_not_ws {c : Char} (h : isLabelChar c = true) : isJsWs c = false := by
  rcases Bool.or_eq_true _ _ |>.mp h with h1 | h2
  · simp only [isAsciiAlphanum, decide_eq_true_eq] at h1
    simp only [isJsWs, decide_eq_false_iff_not]
    omega
  · have : c = '-' := by simpa using h2
    subst this
    decide

/-- `splitOnChar` never returns the empty list of parts. -/
theorem splitOnChar_ne_nil (sep : Char) : ∀ l, splitOnChar sep l ≠ [] := by
  intro l
  cases l with
  | nil => simp [splitOnChar]
  | cons c cs =>
    by_cases h : c = sep <;> simp [splitOnChar, h]

/-- Every member of the input is the separator or a member of a part. -/
theorem splitOnChar_mem (sep : Char) :
    ∀ {l : List Char} {c : Char}, c ∈ l →
      c = sep ∨ ∃ p ∈ splitOnChar sep l, c ∈ p := by
  intro l
  induction l with
  | nil => intro c h; cases h
  | cons x cs ih =>
    intro c h
    by_cases hx : x = sep
    · subst hx
      rcases List.mem_cons.mp h with rfl | h2
      · exact Or.inl rfl
      · rcases ih h2 with h3 | ⟨p, hp, hcp⟩
        · exact Or.inl h3
        · exact Or.inr ⟨p, by simp [splitOnChar, List.mem_cons]; right; exact hp, hcp⟩
    · obtain ⟨hh, ht⟩ : ∃ hh ht, splitOnChar sep cs = hh :: ht := by
        cases he : splitOnChar sep cs with
        | nil => exact absurd he (splitOnChar_ne_nil sep cs)
        | cons a b => exact ⟨a, b, rfl⟩
      obtain ⟨ht, he⟩ := ht
      have hsp : splitOnChar sep (x :: cs) = (x :: hh) :: ht := by
        simp [splitOnChar, hx, he]
      rcases List.mem_cons.mp h with hceq | h2
      · subst hceq
        exact Or.inr ⟨c :: hh, by rw [hsp]; exact List.mem_cons_self _ _,
          List.mem_cons_self _ _⟩
      · rcases ih h2 with h3 | ⟨p, hp, hcp⟩
        · exact Or.inl h3
        · rw [he] at hp
          rcases List.mem_cons.mp hp with rfl | hp2
          · exact Or.inr ⟨x :: p, by rw [hsp]; exact List.mem_cons_self _ _,
              List.mem_cons_of_mem _ hcp⟩
          · exact Or.inr ⟨p, by rw [hsp]; exact List.mem_cons_of_mem _ hp2, hcp⟩

/-- Recover the first separator from a split with at least two parts. -/
theorem splitOnChar_cons (sep : Char) :
    ∀ {l : List Char} {a : List Char} {rs : List (List Char)},
      splitOnChar sep l = a :: rs → rs ≠ [] →
        ∃ r, l = a ++ sep :: r ∧ splitOnChar sep r = rs := by
  intro l
  induction l with
  | nil =>
    intro a rs h hne
    simp [splitOnChar] at h
    exact absurd h.2 hne
  | cons x cs ih =>
    intro a rs h hne
    by_cases hx : x = sep
    · subst hx
      simp only [splitOnChar, if_pos rfl] at h
      obtain ⟨ha, hrs⟩ := List.cons.injEq _ _ _ _ ▸ h
      exact ⟨cs, by rw [← ha]; rfl, by rw [← hrs]⟩
    · obtain ⟨hh, ht, he⟩ : ∃ hh ht, splitOnChar sep cs = hh :: ht := by
        cases he : splitOnChar sep cs with
        | nil => exact absurd he (splitOnChar_ne_nil sep cs)
        | cons a b => exact ⟨a, b, rfl⟩
      have hsp : splitOnChar sep (x :: cs) = (x :: hh) :: ht := by
        simp [splitOnChar, hx, he]
      rw [hsp] at h
      obtain ⟨ha, hrs⟩ := List.cons.injEq _ _ _ _ ▸ h
      subst hrs
      obtain ⟨r, hr1, hr2⟩ := ih he hne
      exact ⟨r, by rw [← ha, hr1]; rfl, hr2⟩

/-- A label accepted by `labelOk` is non-empty and made of label
characters. -/
theorem labelOk_parts {lab : List Char} (h : labelOk lab = true) :
    lab ≠ [] ∧ lab.all isLabelChar = true := by
  cases lab with
  | nil => simp [labelOk] at h
  | cons a as =>
    cases hg : (a :: as).getLast? with
    | none =>
      rw [List.getLast?_eq_none_iff] at hg
      cases hg
    | some b =>
      simp only [labelOk, List.head?_cons, hg] at h
      refine ⟨by simp, ?_⟩
      obtain ⟨-, -, -, h4⟩ :
          isAsciiAlphanum a = true ∧ isAsciiAlphanum b = true ∧
            decide ((a :: as).length ≤ 63) = true ∧
            (a :: as).all isLabelChar = true := by
        simpa [Bool.and_eq_true, and_assoc] using h
      exact h4

/-- A string matched by the validator's email grammar is matched by the
dispatch route's `EMAIL_REGEX`. -/
theorem validator_imp_route {t : List Char} (h : validatorRegexTest t = true) :
    emailRegexTest t = true := by
  cases hsp : splitOnChar '@' t with
  | nil => exact absurd hsp (splitOnChar_ne_nil '@' t)
  | cons loc rest =>
    cases rest with
    | nil =>
      unfold validatorRegexTest at h
      rw [hsp] at h
      simp at h
    | cons dom rest2 =>
      cases rest2 with
      | cons z zs =>
        unfold validatorRegexTest at h
        rw [hsp] at h
        simp at h
      | nil =>
        have h' : ((splitOnChar '.' loc).all localAtomOk &&
            (decide (2 ≤ (splitOnChar '.' dom).length) &&
              (splitOnChar '.' dom).all labelOk)) = true := by
          unfold validatorRegexTest at h
          rw [hsp] at h
          exact h
        obtain ⟨h1, h2⟩ := Bool.and_eq_true _ _ |>.mp h'
        obtain ⟨h2a, h2b⟩ := Bool.and_eq_true _ _ |>.mp h2
        have h1' := List.all_eq_true.mp h1
        have h2b' := List.all_eq_true.mp h2b
        have hlocne : loc ≠ [] := by
          intro he
          subst he
          have := h1' [] (by simp [splitOnChar])
          simp [localAtomOk] at this
        have hnows : ∀ c ∈ loc ++ dom, (!(isJsWs c)) = true := by
          intro c hc
          rcases List.mem_append.mp hc with hcl | hcd
          · rcases splitOnChar_mem '.' hcl with hdot | ⟨p, hp, hcp⟩
            · subst hdot
              decide
            · have hpok := h1' p hp
              obtain ⟨-, hall⟩ : p ≠ [] ∧ p.all isAtomChar = true := by
                simpa [localAtomOk, Bool.and_eq_true] using hpok
              rw [atom_not_ws (List.all_eq_true.mp hall c hcp)]
              rfl
          · rcases splitOnChar_mem '.' hcd with hdot | ⟨p, hp, hcp⟩
            · subst hdot
              decide
            · have hpok := labelOk_parts (h2b' p hp)
              rw [label_not_ws (List.all_eq_true.mp hpok.2 c hcp)]
              rfl
        have hdot : ((dom.drop 1).dropLast).contains '.' = true := by
          cases hsd : splitOnChar '.' dom with
          | nil => exact absurd hsd (splitOnChar_ne_nil '.' dom)
          | cons lab1 rest =>
            cases rest with
            | nil =>
              rw [hsd] at h2a
              simp at h2a
            | cons lab2 tl =>
              obtain ⟨r, hdom, hsr⟩ := splitOnChar_cons '.' hsd (by simp)
              have hlab1 : lab1 ≠ [] :=
                (labelOk_parts (h2b' lab1 (by rw [hsd]; exact List.mem_cons_self _ _))).1
              have hrne : r ≠ [] := by
                intro hre
                subst hre
                simp [splitOnChar] at hsr
                have hlab2 : lab2 ≠ [] :=
                  (labelOk_parts (h2b' lab2 (by
                    rw [hsd]
                    exact List.mem_cons_of_mem _ (List.mem_cons_self _ _)))).1
                exact hlab2 hsr.1
              obtain ⟨x, xs, rfl⟩ : ∃ x xs, lab1 = x :: xs := by
                cases lab1 with
                | nil => exact absurd rfl hlab1
                | cons x xs => exact ⟨x, xs, rfl⟩
              obtain ⟨y, ys, rfl⟩ : ∃ y ys, r = y :: ys := by
                cases r with
                | nil => exact absurd rfl hrne
                | cons y ys => exact ⟨y, ys, rfl⟩
              rw [hdom]
              have hdrop : (((x :: xs) ++ '.' :: y :: ys).drop 1) =
                  xs ++ '.' :: y :: ys := by
                rw [List.cons_append]
                rfl
              rw [hdrop, List.dropLast_append_of_ne_nil xs (by simp)]
              have : '.' ∈ xs ++ ('.' :: y :: ys).dropLast := by
                refine List.mem_append_right _ ?_
                rw [List.dropLast_cons₂]
                exact List.mem_cons_self _ _
              exact List.elem_iff.mpr this
        unfold emailRegexTest
        rw [hsp]
        show (decide (loc ≠ []) && (loc ++ dom).all (fun c => !(isJsWs c)) &&
          ((dom.drop 1).dropLast).contains '.') = true
        rw [List.all_eq_true.mpr hnows, hdot, decide_eq_true hlocne]
        rfl

/-- C10: the dispatch endpoint's address check is a weakening of the
Validator's grammar: whenever `validateEmailFormat` accepts a string,
the dispatch route's `EMAIL_REGEX` matches its trimmed form; the
converse fails, e.g. at `user..name@example.com`, which the dispatch
check accepts and the Validator rejects. -/
theorem emailRegex_weaker_than_validator :
    (∀ s : String, (validateEmailFormat (.str s)).isValid = true →
      emailRegexTest (jsTrim s.data) = true)
  ∧ emailRegexTest (jsTrim "user..name@example.com".data) = true
  ∧ (validateEmailFormat (.str "user..name@example.com")).isValid = false := by
  refine ⟨?_, by decide, by decide⟩
  intro s h
  by_cases h0 : s = ""
  · rw [h0] at h
    exact absurd h (by decide)
  · simp only [validateEmailFormat] at h
    rw [if_neg h0] at h
    by_cases h1 : jsTrim s.data = []
    · rw [if_pos h1] at h
      simp at h
    · rw [if_neg h1] at h
      by_cases h2 : 254 < (jsTrim s.data).length
      · rw [if_pos h2] at h
        simp at h
      · rw [if_neg h2] at h
        by_cases h3 : validatorRegexTest (jsTrim s.data) = true
        · exact validator_imp_route h3
        · rw [if_neg h3] at h
          simp at h

/-- Witness for C10: instantiate the refinement at a validator-accepted
address. -/
theorem emailRegex_weaker_than_validator_witness :
    emailRegexTest (jsTrim "user@example.com".data) = true :=
  emailRegex_weaker_than_validator.1 "user@example.com" (by decide)

/-! ### Dispatch lemmas -/

/-- `validateEmails` partitions the entries. -/
theorem validateEmails_length :
    ∀ xs : List RecipientVal,
      (validateEmails xs).1.length + (validateEmails xs).2.length = xs.length := by
  intro xs
  induction xs with
  | nil => rfl
  | cons e rest ih =>
    cases e with
    | nonString shown =>
      simp only [validateEmails, List.length_cons]
      omega
    | str s =>
      simp only [validateEmails]
      by_cases h : emailRegexTest (jsTrim s.data) = true
      · rw [if_pos h]
        simp only [List.length_cons]
        omega
      · rw [if_neg h]
        simp only [List.length_cons]
        omega

/-- The send loop counts the successful attempts and collects the failed
recipients, in order. -/
theorem sendLoop_eq (ok : Nat → Bool) :
    ∀ (l : List String) (i : Nat),
      sendLoop ok i l =
        ((l.enumFrom i).countP (fun p => ok p.1),
         ((l.enumFrom i).filter (fun p => !(ok p.1))).map Prod.snd) := by
  intro l
  induction l with
  | nil => intro i; rfl
  | cons r rs ih =>
    intro i
    simp only [sendLoop, ih (i + 1)]
    by_cases h : ok i
    · simp [List.enumFrom, List.countP_cons, List.filter_cons, h]
    · simp [List.enumFrom, List.countP_cons, List.filter_cons, h]

/-- Success count and failure count of the send loop partition the batch. -/
theorem sendLoop_total (ok : Nat → Bool) :
    ∀ (l : List String) (i : Nat),
      (sendLoop ok i l).1 + (sendLoop ok i l).2.length = l.length := by
  intro l
  induction l with
  | nil => intro i; rfl
  | cons r rs ih =>
    intro i
    have := ih (i + 1)
    simp only [sendLoop]
    by_cases h : ok i
    · simp only [if_pos h, List.length_cons]
      omega
    · simp only [if_neg h, List.length_cons]
      omega

/-- When no attempt succeeds the failed list is the whole batch. -/
theorem sendLoop_all_failed (ok : Nat → Bool) :
    ∀ (l : List String) (i : Nat),
      (sendLoop ok i l).1 = 0 → (sendLoop ok i l).2 = l := by
  intro l
  induction l with
  | nil => intro i _; rfl
  | cons r rs ih =>
    intro i h
    simp only [sendLoop] at h ⊢
    by_cases hok : ok i
    · rw [if_pos hok] at h
      omega
    · rw [if_neg hok] at h ⊢
      rw [ih (i + 1) h]

/-- Under passing presence, address and sanitization checks and a
successful probe, the dispatch handler reduces to the send loop and its
aggregation. -/
theorem sendPOST_sends (xs : List RecipientVal) (subj cont : String)
    (ok : Nat → Bool)
    (h1 : xs ≠ []) (h2 : subj ≠ "") (h3 : jsTrim subj.data ≠ [])
    (h4 : cont ≠ "") (h5 : jsTrim cont.data ≠ [])
    (h6 : (validateEmails xs).2 = [])
    (h7 : sanitizeContent subj ≠ "") (h8 : sanitizeContent cont ≠ "") :
    sendPOST ⟨.arr xs, .str subj, .str cont⟩ true ok =
      ((if (sendLoop ok 0 (validateEmails xs).1).1 = 0 then
          ⟨500, false, some 0, some (sendLoop ok 0 (validateEmails xs).1).2,
            some "Failed to send emails to any recipients"⟩
        else if (sendLoop ok 0 (validateEmails xs).1).2 ≠ [] then
          ⟨207, true, some (sendLoop ok 0 (validateEmails xs).1).1,
            some (sendLoop ok 0 (validateEmails xs).1).2,
            some ("Partially successful: failed to send to " ++
              toString (sendLoop ok 0 (validateEmails xs).1).2.length ++
              " recipients")⟩
        else ⟨200, true, some (sendLoop ok 0 (validateEmails xs).1).1, none, none⟩),
       (validateEmails xs).1) := by
  have hv1 : (validateEmails xs).1 ≠ [] := by
    intro he
    have hlen := validateEmails_length xs
    rw [he, h6] at hlen
    simp at hlen
    exact h1 (List.length_eq_zero.mp hlen.symm)
  simp only [sendPOST, strPresent, if_neg h1, if_neg h2, if_neg h3, if_neg h4,
    if_neg h5, ne_eq, if_neg (not_not_intro h6), if_neg hv1, if_neg h7,
    if_neg h8, if_true, not_false_eq_true]
  split_ifs <;> rfl

/-- C1: for every dispatch request that passes presence, address and
sanitization checks and whose transport probe succeeds, with the
validated recipients `valid`, `cnt` sends succeeding and `failed` the
addresses of the failing sends: zero successes give status 500 with
`success = false`, `sentCount = 0` and `failedRecipients` listing all
recipients; partial success gives status 207 with `success = true`,
`sentCount = cnt` and `failedRecipients` exactly the failed addresses;
total success gives status 200 with `success = true` and
`sentCount = valid.length`. -/
theorem dispatch_aggregation (xs : List RecipientVal) (subj cont : String)
    (ok : Nat → Bool) (valid failed : List String) (cnt : Nat)
    (h1 : xs ≠ []) (h2 : subj ≠ "") (h3 : jsTrim subj.data ≠ [])
    (h4 : cont ≠ "") (h5 : jsTrim cont.data ≠ [])
    (h6 : (validateEmails xs).2 = [])
    (h7 : sanitizeContent subj ≠ "") (h8 : sanitizeContent cont ≠ "")
    (hv : valid = (validateEmails xs).1)
    (hc : cnt = valid.enum.countP (fun p => ok p.1))
    (hf : failed = (valid.enum.filter (fun p => !(ok p.1))).map Prod.snd) :
    (cnt = 0 → sendPOST ⟨.arr xs, .str subj, .str cont⟩ true ok =
      (⟨500, false, some 0, some valid,
        some "Failed to send emails to any recipients"⟩, valid))
  ∧ (0 < cnt → cnt < valid.length →
      sendPOST ⟨.arr xs, .str subj, .str cont⟩ true ok =
        (⟨207, true, some cnt, some failed,
          some ("Partially successful: failed to send to " ++
            toString failed.length ++ " recipients")⟩, valid))
  ∧ (cnt = valid.length →
      sendPOST ⟨.arr xs, .str subj, .str cont⟩ true ok =
        (⟨200, true, some cnt, none, none⟩, valid)) := by
  subst hv
  have hse := sendLoop_eq ok (validateEmails xs).1 0
  have hc' : (sendLoop ok 0 (validateEmails xs).1).1 = cnt := by
    rw [hse, hc]
    rfl
  have hf' : (sendLoop ok 0 (validateEmails xs).1).2 = failed := by
    rw [hse, hf]
    rfl
  have htot := sendLoop_total ok (validateEmails xs).1 0
  rw [sendPOST_sends xs subj cont ok h1 h2 h3 h4 h5 h6 h7 h8]
  refine ⟨?_, ?_, ?_⟩
  · intro h0
    rw [if_pos (by rw [hc']; exact h0)]
    rw [sendLoop_all_failed ok (validateEmails xs).1 0 (by rw [hc']; exact h0)]
  · intro hpos hlt
    rw [if_neg (by rw [hc']; omega)]
    have hfne : (sendLoop ok 0 (validateEmails xs).1).2 ≠ [] := by
      intro he
      rw [he] at htot
      rw [hc'] at htot
      simp at htot
      omega
    rw [if_pos hfne, hc', hf']
  · intro hall
    have hv1 : (validateEmails xs).1 ≠ [] := by
      intro he
      have hlen := validateEmails_length xs
      rw [he, h6] at hlen
      simp at hlen
      exact h1 (List.length_eq_zero.mp hlen.symm)
    have hNpos : 0 < (validateEmails xs).1.length := List.length_pos.mpr hv1
    rw [if_neg (by rw [hc']; omega)]
    have hfe : (sendLoop ok 0 (validateEmails xs).1).2 = [] := by
      rw [hc'] at htot
      have : (sendLoop ok 0 (validateEmails xs).1).2.length = 0 := by omega
      exact List.length_eq_zero.mp this
    rw [if_neg (not_not_intro hfe), hc']

/-- Witness for C1: a two-recipient batch where only the first send
succeeds yields the 207 multi-status outcome. -/
theorem dispatch_aggregation_witness :
    sendPOST ⟨.arr [.str "a@x.com", .str "b@x.com"], .str "Hi", .str "Hello"⟩
        true (fun i => i == 0) =
      (⟨207, true, some 1, some ["b@x.com"],
        some ("Partially successful: failed to send to " ++
          toString (["b@x.com"] : List String).length ++ " recipients")⟩,
       ["a@x.com", "b@x.com"]) :=
  (dispatch_aggregation [.str "a@x.com", .str "b@x.com"] "Hi" "Hello"
    (fun i => i == 0) ["a@x.com", "b@x.com"] ["b@x.com"] 1
    (by decide) (by decide) (by decide) (by decide) (by decide) (by decide)
    (by decide) (by decide) (by decide) (by decide) (by decide)).2.1
    (by decide) (by decide)

/-- C2: for every dispatch request that reaches the per-recipient send
loop, `sentCount + |failedRecipients| = N` where `N` is the number of
validated recipients, and the response's success flag is true iff
`sentCount > 0`. -/
theorem dispatch_invariant (xs : List RecipientVal) (subj cont : String)
    (ok : Nat → Bool)
    (h1 : xs ≠ []) (h2 : subj ≠ "") (h3 : jsTrim subj.data ≠ [])
    (h4 : cont ≠ "") (h5 : jsTrim cont.data ≠ [])
    (h6 : (validateEmails xs).2 = [])
    (h7 : sanitizeContent subj ≠ "") (h8 : sanitizeContent cont ≠ "") :
    ((sendPOST ⟨.arr xs, .str subj, .str cont⟩ true ok).1.sentCount.getD 0)
      + ((sendPOST ⟨.arr xs, .str subj, .str cont⟩ true ok).1.failedRecipients.getD []).length
      = (validateEmails xs).1.length
  ∧ ((sendPOST ⟨.arr xs, .str subj, .str cont⟩ true ok).1.success = true ↔
      0 < (sendPOST ⟨.arr xs, .str subj, .str cont⟩ true ok).1.sentCount.getD 0) := by
  have htot := sendLoop_total ok (validateEmails xs).1 0
  rw [sendPOST_sends xs subj cont ok h1 h2 h3 h4 h5 h6 h7 h8]
  split_ifs with hz hf
  · constructor
    · simp only [Option.getD_some]
      omega
    · simp
  · constructor
    · simp only [Option.getD_some]
      omega
    · simp only [Option.getD_some, true_iff]
      omega
  · constructor
    · simp only [Option.getD_some, Option.getD_none, List.length_nil]
      have hfe : (sendLoop ok 0 (validateEmails xs).1).2 = [] := by
        rcases he : (sendLoop ok 0 (validateEmails xs).1).2 with _ | ⟨a, b⟩
        · rfl
        · exact absurd he (by exact fun hh => hf (by rw [hh]; simp))
      rw [hfe] at htot
      simpa using htot
    · simp only [Option.getD_some, true_iff]
      omega

/-- Witness for C2: the invariant at a concrete partially-failing batch. -/
theorem dispatch_invariant_witness :
    ((sendPOST ⟨.arr [.str "a@x.com", .str "b@x.com"], .str "Hi", .str "Hello"⟩
        true (fun i => i == 0)).1.sentCount.getD 0)
      + ((sendPOST ⟨.arr [.str "a@x.com", .str "b@x.com"], .str "Hi", .str "Hello"⟩
        true (fun i => i == 0)).1.failedRecipients.getD []).length
      = (validateEmails [.str "a@x.com", .str "b@x.com"]).1.length
  ∧ ((sendPOST ⟨.arr [.str "a@x.com", .str "b@x.com"], .str "Hi", .str "Hello"⟩
        true (fun i => i == 0)).1.success = true ↔
      0 < (sendPOST ⟨.arr [.str "a@x.com", .str "b@x.com"], .str "Hi", .str "Hello"⟩
        true (fun i => i == 0)).1.sentCount.getD 0) :=
  dispatch_invariant [.str "a@x.com", .str "b@x.com"] "Hi" "Hello"
    (fun i => i == 0) (by decide) (by decide) (by decide) (by decide)
    (by decide) (by decide) (by decide) (by decide)

/-- C3: for every dispatch request that reaches address validation
(presence checks pass) and whose recipient list contains at least one
entry rejected by the endpoint's address check after trimming, the
endpoint returns status 400 with `success = false` and
`failedRecipients` listing every invalid entry, and no send is attempted
(the attempted list is empty and the response does not depend on the
probe or the send outcomes). -/
theorem dispatch_invalid_recipients (xs : List RecipientVal)
    (subj cont : String) (probe : Bool) (ok : Nat → Bool)
    (h1 : xs ≠ []) (h2 : subj ≠ "") (h3 : jsTrim subj.data ≠ [])
    (h4 : cont ≠ "") (h5 : jsTrim cont.data ≠ [])
    (h6 : (validateEmails xs).2 ≠ []) :
    sendPOST ⟨.arr xs, .str subj, .str cont⟩ probe ok =
      (⟨400, false, none, some (validateEmails xs).2,
        some ("Invalid email addresses: " ++
          String.intercalate ", " (validateEmails xs).2)⟩, []) := by
  simp only [sendPOST, strPresent, if_neg h1, if_neg h2, if_neg h3, if_neg h4,
    if_neg h5, ne_eq]
  rw [if_pos h6]

/-- Witness for C3: the spec's scenario with one malformed entry among
valid ones is rejected whole, with no send attempted. -/
theorem dispatch_invalid_recipients_witness :
    sendPOST ⟨.arr [.str "s1@example.com", .str "bad", .str "s2@example.com"],
        .str "Hi", .str "Hello"⟩ true (fun _ => true) =
      (⟨400, false, none,
        some (validateEmails [.str "s1@example.com", .str "bad",
          .str "s2@example.com"]).2,
        some ("Invalid email addresses: " ++ String.intercalate ", "
          (validateEmails [.str "s1@example.com", .str "bad",
            .str "s2@example.com"]).2)⟩, []) :=
  dispatch_invalid_recipients
    [.str "s1@example.com", .str "bad", .str "s2@example.com"] "Hi" "Hello"
    true (fun _ => true) (by decide) (by decide) (by decide) (by decide)
    (by decide) (by decide)

/-- Counterexample for C4: a duplicate pair passes the dispatch endpoint
untouched — with both sends succeeding the response is 200 with
`sentCount = 2` and both copies are handed to the relay, instead of the
claimed 400 batch-level rejection before any send. -/
theorem dispatch_no_batch_check_counterexample :
    sendPOST ⟨.arr [.str "a@x.com", .str "a@x.com"], .str "Hi", .str "Hello"⟩
        true (fun _ => true) =
      (⟨200, true, some 2, none, none⟩, ["a@x.com", "a@x.com"])
  ∧ (sendPOST ⟨.arr [.str "a@x.com", .str "a@x.com"], .str "Hi", .str "Hello"⟩
      true (fun _ => true)).1.status ≠ 400
  ∧ (sendPOST ⟨.arr [.str "a@x.com", .str "a@x.com"], .str "Hi", .str "Hello"⟩
      true (fun _ => true)).2 ≠ [] :=
  ⟨by decide, by decide, by decide⟩

/-- C4 (amended): the dispatch endpoint performs no batch-level
duplicate or size validation.  Whenever the presence, per-item address
and sanitization checks pass and the probe succeeds, every validated
recipient — duplicates included, with no bound on the batch size — is
handed to the relay, and the response is never a 400. -/
theorem dispatch_no_batch_check (xs : List RecipientVal) (subj cont : String)
    (ok : Nat → Bool)
    (h1 : xs ≠ []) (h2 : subj ≠ "") (h3 : jsTrim subj.data ≠ [])
    (h4 : cont ≠ "") (h5 : jsTrim cont.data ≠ [])
    (h6 : (validateEmails xs).2 = [])
    (h7 : sanitizeContent subj ≠ "") (h8 : sanitizeContent cont ≠ "") :
    (sendPOST ⟨.arr xs, .str subj, .str cont⟩ true ok).2 = (validateEmails xs).1
  ∧ (sendPOST ⟨.arr xs, .str subj, .str cont⟩ true ok).1.status ≠ 400 := by
  rw [sendPOST_sends xs subj cont ok h1 h2 h3 h4 h5 h6 h7 h8]
  constructor
  · split_ifs <;> rfl
  · split_ifs <;> simp

/-- Witness for C4: the amended statement at an 51-entry batch with a
duplicated address. -/
theorem dispatch_no_batch_check_witness :
    (sendPOST ⟨.arr (List.replicate 51 (.str "a@x.com")), .str "Hi",
        .str "Hello"⟩ true (fun _ => true)).2
      = (validateEmails (List.replicate 51 (.str "a@x.com"))).1
  ∧ (sendPOST ⟨.arr (List.replicate 51 (.str "a@x.com")), .str "Hi",
      .str "Hello"⟩ true (fun _ => true)).1.status ≠ 400 :=
  dispatch_no_batch_check (List.replicate 51 (.str "a@x.com")) "Hi" "Hello"
    (fun _ => true) (by decide) (by decide) (by decide) (by decide)
    (by decide) (by decide) (by decide) (by decide)

/-! ### The generate endpoint and the subject split -/

/-- C8: for every generate request whose prompt is missing, not a
string, empty after trimming, or longer than 2000 characters, the
configured generate endpoint returns 400 without calling the external
completion collaborator: the response is independent of the
collaborator's completion `c` and the called flag is `false`. -/
theorem generate_invalid_prompt (p : StrVal) (c : Option String)
    (hp : p = .missing ∨ p = .nonString ∨
      ∃ s, p = .str s ∧ (s = "" ∨ jsTrim s.data = [] ∨ 2000 < s.data.length)) :
    generatePOST true p c = (⟨400, false, none⟩, false) := by
  rcases hp with rfl | rfl | ⟨s, rfl, hs⟩
  · rfl
  · rfl
  · by_cases h0 : s = ""
    · simp [generatePOST, h0]
    · by_cases h1 : jsTrim s.data = []
      · simp [generatePOST, h0, h1]
      · have h2 : 2000 < s.data.length := by
          rcases hs with hh | hh | hh
          · exact absurd hh h0
          · exact absurd hh h1
          · exact hh
        have h2s : 2000 < s.length := h2
        simp [generatePOST, h0, h1, h2, h2s]

/-- Witness for C8: a whitespace-only prompt is rejected with 400 and no
collaborator call, whatever the collaborator would have answered. -/
theorem generate_invalid_prompt_witness :
    generatePOST true (.str "   ") (some "completion text") =
      (⟨400, false, none⟩, false) :=
  generate_invalid_prompt (.str "   ") (some "completion text")
    (Or.inr (Or.inr ⟨"   ", rfl, Or.inr (Or.inl (by decide))⟩))

/-- Splitting a list at the first failing element of `takeWhile`. -/
theorem takeWhile_append_stop {p : Char → Bool} :
    ∀ (t : List Char), (∀ c ∈ t, p c = true) → ∀ (d : Char) (X : List Char),
      p d = false →
        (t ++ d :: X).takeWhile p = t ∧ (t ++ d :: X).dropWhile p = d :: X := by
  intro t
  induction t with
  | nil =>
    intro _ d X hd
    constructor
    · simp [List.takeWhile_cons, hd]
    · simp [List.dropWhile_cons, hd]
  | cons c cs ih =>
    intro hall d X hd
    have hc : p c = true := hall c (List.mem_cons_self _ _)
    have hrest := ih (fun x hx => hall x (List.mem_cons_of_mem _ hx)) d X hd
    constructor
    · rw [List.cons_append, List.takeWhile_cons_of_pos hc, hrest.1]
    · rw [List.cons_append, List.dropWhile_cons_of_pos hc, hrest.2]

/-- Trimming ignores a leading whitespace character. -/
theorem jsTrim_cons_ws (c : Char) (l : List Char) (hc : isJsWs c = true) :
    jsTrim (c :: l) = jsTrim l := by
  unfold jsTrim
  rw [List.dropWhile_cons_of_pos hc]

/-- Counterexample for C7: the subject pattern carries the multiline
flag, so a `Subject:` line other than the first is still extracted
(first input), and with no match the body is returned untrimmed (second
input), contradicting the claimed first-line-only, always-trimmed
behaviour. -/
theorem subject_split_counterexample :
    parseGenerated "Hi\nSubject: X" = ("X", "Hi")
  ∧ parseGenerated "Hi\nSubject: X" ≠ ("", "Hi\nSubject: X")
  ∧ parseGenerated " hi " = ("", " hi ")
  ∧ parseGenerated " hi " ≠ ("", "hi") :=
  ⟨by decide, by decide, by decide, by decide⟩

/-- C7 (amended): if any line of the completion matches
`^Subject:\s*(.+?)$` the parsed subject is the first match's capture,
trimmed, and the body is the text with that matched span removed and
trimmed — in particular this holds when the text begins with
`Subject: ` followed by a non-empty terminator-free capture, as in the
spec's example; if no line matches, the subject is empty and the body is
the raw text unchanged (not trimmed). -/
theorem subject_split_amended :
    (∀ t rest : List Char, t ≠ [] → (∀ c ∈ t, isLineTerm c = false) →
      (∀ c, t.head? = some c → isJsWs c = false) →
      parseGenerated ⟨"Subject: ".data ++ t ++ '\n' :: rest⟩ =
        (⟨jsTrim t⟩, ⟨jsTrim rest⟩))
  ∧ (∀ s : String, scanSubject [] s.data true = none →
      parseGenerated s = ("", s))
  ∧ parseGenerated "Subject: Team Sync\n\nLet\x27s meet Friday."
      = ("Team Sync", "Let\x27s meet Friday.") := by
  refine ⟨?_, ?_, by decide⟩
  · intro t rest ht hterm hhd
    obtain ⟨c0, t', rfl⟩ : ∃ c0 t', t = c0 :: t' := by
      cases t with
      | nil => exact absurd rfl ht
      | cons a b => exact ⟨a, b, rfl⟩
    have hstop := takeWhile_append_stop (p := fun c => !(isLineTerm c))
      (c0 :: t') (fun c hc => by simp [hterm c hc]) '\n' rest (by decide)
    simp only [List.cons_append] at hstop
    have hnc0 : ¬ (isJsWs c0 = true) := by
      rw [hhd c0 rfl]
      exact Bool.false_ne_true
    have htm : tryMatch ("Subject: ".data ++ (c0 :: t') ++ '\n' :: rest) =
        some (c0 :: t', '\n' :: rest) := by
      have htk : ("Subject: ".data ++ (c0 :: t') ++ '\n' :: rest).take 8 =
          "Subject:".data := rfl
      have hd8 : ("Subject: ".data ++ (c0 :: t') ++ '\n' :: rest).drop 8 =
          ' ' :: (c0 :: (t' ++ '\n' :: rest)) := rfl
      unfold tryMatch
      rw [if_pos htk, hd8,
        List.dropWhile_cons_of_pos (show isJsWs ' ' = true by decide),
        List.dropWhile_cons_of_neg hnc0]
      simp only [hstop.1, hstop.2]
    have hscan : scanSubject []
        ("Subject: ".data ++ (c0 :: t') ++ '\n' :: rest) true =
        some (c0 :: t', [], '\n' :: rest) := by
      show scanSubject [] ('S' :: 'u' :: 'b' :: 'j' :: 'e' :: 'c' :: 't' ::
        ':' :: ' ' :: ((c0 :: t') ++ '\n' :: rest)) true = _
      unfold scanSubject
      rw [if_pos ⟨rfl, by rw [show ('S' :: 'u' :: 'b' :: 'j' :: 'e' :: 'c' ::
          't' :: ':' :: ' ' :: ((c0 :: t') ++ '\n' :: rest) : List Char) =
          "Subject: ".data ++ (c0 :: t') ++ '\n' :: rest from rfl, htm]; rfl⟩]
      rw [show ('S' :: 'u' :: 'b' :: 'j' :: 'e' :: 'c' :: 't' :: ':' :: ' ' ::
        ((c0 :: t') ++ '\n' :: rest) : List Char) =
        "Subject: ".data ++ (c0 :: t') ++ '\n' :: rest from rfl, htm]
      rfl
    unfold parseGenerated
    rw [show (⟨"Subject: ".data ++ (c0 :: t') ++ '\n' :: rest⟩ : String).data =
      "Subject: ".data ++ (c0 :: t') ++ '\n' :: rest from rfl, hscan]
    show (⟨jsTrim (c0 :: t')⟩, ⟨jsTrim ([] ++ '\n' :: rest)⟩) =
      ((⟨jsTrim (c0 :: t')⟩ : String), (⟨jsTrim rest⟩ : String))
    rw [List.nil_append, jsTrim_cons_ws '\n' rest (by decide)]
  · intro s h
    simp only [parseGenerated, h]

/-- Witness for C7: the amended split at a one-line subject draft and at
a subject-free draft. -/
theorem subject_split_amended_witness :
    parseGenerated ⟨"Subject: ".data ++ "X".data ++ '\n' :: "ok".data⟩ =
      (⟨jsTrim "X".data⟩, ⟨jsTrim "ok".data⟩)
  ∧ parseGenerated "hello" = ("", "hello") :=
  ⟨subject_split_amended.1 "X".data "ok".data (by decide) (by decide)
    (by decide),
   subject_split_amended.2.1 "hello" (by decide)⟩
